import Mathlib

/-!
# Verification of the pan-detection and grouping pipeline

A shallow embedding of `cloudfunctions/video-to-panoramas/lib.py`: the pan
classifier (`is_horizontal_pan`), the group builder (the nested while loops of
`detect_pan_groups_from_video`), the export selector (`pick_subset`), the
panorama quality gate (`validate_panorama_quality`), and the per-group result
assembly.  Python floats are modelled as rationals (`ℚ`), Python ints as
`ℕ`/`ℤ`, absent values (`None`) as `Option`, and external capabilities (the
OpenCV motion estimator, the stitcher, GCS persistence) as oracle parameters.
Fallible list indexing is modelled with `Option`.
-/

set_option maxHeartbeats 1000000
set_option maxRecDepth 8000

namespace Panoramas

/-- The per-pair motion summary produced by `pair_motion_metrics` (the 3×3
homography itself is never read downstream, so it is not carried). -/
structure MotionSummary where
  inlier_ratio : ℚ
  median_u : ℚ
  median_v : ℚ
  resid : ℚ
  scale : ℚ
deriving DecidableEq, Repr

/-- The merged configuration record of `detect_pan_groups_from_video` (the
`cfg` dict after `cfg.update(settings)`), together with the two keys read via
`cfg.get` with fallback defaults (`min_pano_aspect_ratio`,
`max_black_border_percent`). -/
structure Config where
  sample_every : ℕ
  min_group_len : ℕ
  sharp_thr : ℚ
  feature : String
  tau_inliers : ℚ
  tau_v : ℚ
  tau_u_min : ℚ
  tau_u_max : ℚ
  tau_scale : ℚ
  tau_parallax : ℚ
  export_overlap_target : ℚ
  jpeg_quality : ℕ
  stitch : Bool
  stitch_warper : String
  stitch_warper_scale : ℚ
  export_all_in_group : Bool
  min_pano_aspect_ratio : ℚ
  max_black_border_percent : ℚ
deriving DecidableEq, Repr

/-- The hardcoded defaults of `detect_pan_groups_from_video` (plus the two
`cfg.get` fallbacks). -/
def default_cfg : Config where
  sample_every := 3
  min_group_len := 3
  sharp_thr := 20
  feature := "ORB"
  tau_inliers := 0.30
  tau_v := 1.5
  tau_u_min := 15
  tau_u_max := 400
  tau_scale := 0.02
  tau_parallax := 1.5
  export_overlap_target := 0.4
  jpeg_quality := 92
  stitch := false
  stitch_warper := "cylindrical"
  stitch_warper_scale := 1
  export_all_in_group := false
  min_pano_aspect_ratio := 1.2
  max_black_border_percent := 15

/-- Function `is_horizontal_pan(m, cfg)` from `lib.py`: the pan/no-pan decision and the
informational score.  `m is None` yields `(False, 0.0)`.  The Python chained
comparison `cfg["tau_u_min"] <= abs(m["median_u"]) <= cfg["tau_u_max"]` is the
conjunction of its two comparisons. -/
def is_horizontal_pan (m : Option MotionSummary) (cfg : Config) : Bool × ℚ :=
  match m with
  | none => (false, 0)
  | some m =>
    let ok :=
      decide (cfg.tau_inliers ≤ m.inlier_ratio)
      && decide (|m.median_v| ≤ cfg.tau_v)
      && decide (cfg.tau_u_min ≤ |m.median_u|)
      && decide (|m.median_u| ≤ cfg.tau_u_max)
      && decide (|m.scale - 1| ≤ cfg.tau_scale)
      && decide (m.resid ≤ cfg.tau_parallax)
    let score :=
      1.5 * m.inlier_ratio
      + 0.6 * (1 - min (|m.median_v| / cfg.tau_v) 1)
      + 0.4 * (1 - min (|m.scale - 1| / cfg.tau_scale) 1)
      + 0.6 * (1 - min (m.resid / cfg.tau_parallax) 1)
    (ok, score)

/-- Direction extraction `1 if m["median_u"] >= 0 else -1` from the group-building
loop. -/
def dirOf (u : ℚ) : ℤ :=
  if 0 ≤ u then 1 else -1

/-- One entry of `pair_metrics`, projected to what the group-building loop
reads: `some u` when `is_pan` is true with `u = m["median_u"]`, `none` when
`is_pan` is false (for a false entry the loop never reads the summary, and the
pipeline only produces a true entry together with a present summary). -/
abbrev PairClass := Option ℚ

/-- The inner `while j < len(pair_metrics)` loop: starting from pair index `j`
with accumulated sampled positions `g`, keep extending while pair `j` is a pan
of direction `direction`, appending sampled position `j+1` each time; return
the final `j` together with the accumulated positions. -/
def extendGroup (pm : List PairClass) (direction : ℤ) (j : ℕ) (g : List ℕ) :
    ℕ × List ℕ :=
  match hu : pm[j]? with
  | none => (j, g)
  | some none => (j, g)
  | some (some u) =>
    if dirOf u ≠ direction then (j, g)
    else extendGroup pm direction (j + 1) (g ++ [j + 1])
termination_by pm.length - j
decreasing_by
  have : j < pm.length := by
    by_contra hc
    rw [List.getElem?_eq_none (by omega)] at hu
    exact Option.noConfusion hu
  omega

/-- The inner loop never moves its pair index backwards. -/
theorem extendGroup_le_fst (pm : List PairClass) (direction : ℤ) (j : ℕ)
    (g : List ℕ) : j ≤ (extendGroup pm direction j g).1 := by
  unfold extendGroup
  split
  · exact le_refl j
  · exact le_refl j
  · split
    · exact le_refl j
    · exact le_trans (by omega) (extendGroup_le_fst pm direction (j + 1) (g ++ [j + 1]))
termination_by pm.length - j
decreasing_by
  rename_i hu _
  have : j < pm.length := by
    by_contra hc
    rw [List.getElem?_eq_none (by omega)] at hu
    exact Option.noConfusion hu
  omega

/-- Case equation: the inner loop stops once the pair index leaves the list
(`while j < len(pair_metrics)` fails). -/
theorem extendGroup_none {pm : List PairClass} {j : ℕ} (d : ℤ) (g : List ℕ)
    (h : pm[j]? = none) : extendGroup pm d j g = (j, g) := by
  conv_lhs => rw [extendGroup]
  split <;> simp_all

/-- Case equation: the inner loop stops at a non-pan pair. -/
theorem extendGroup_notpan {pm : List PairClass} {j : ℕ} (d : ℤ) (g : List ℕ)
    (h : pm[j]? = some none) : extendGroup pm d j g = (j, g) := by
  conv_lhs => rw [extendGroup]
  split <;> simp_all

/-- Case equation: the inner loop stops at a pan pair of the other
direction. -/
theorem extendGroup_break {pm : List PairClass} {j : ℕ} {u : ℚ} (d : ℤ)
    (g : List ℕ) (h : pm[j]? = some (some u)) (hd : dirOf u ≠ d) :
    extendGroup pm d j g = (j, g) := by
  conv_lhs => rw [extendGroup]
  split <;> simp_all

/-- Case equation: the inner loop extends across a same-direction pan pair,
appending sampled position `j + 1`. -/
theorem extendGroup_step {pm : List PairClass} {j : ℕ} {u : ℚ} (d : ℤ)
    (g : List ℕ) (h : pm[j]? = some (some u)) (hd : dirOf u = d) :
    extendGroup pm d j g = extendGroup pm d (j + 1) (g ++ [j + 1]) := by
  conv_lhs => rw [extendGroup]
  split
  · simp_all
  · simp_all
  · rename_i u2 heq
    rw [h] at heq
    cases heq
    simp [hd]

/-- The inner loop never walks past the end of the list. -/
theorem extendGroup_le_len (pm : List PairClass) (direction : ℤ) (j : ℕ)
    (g : List ℕ) (h : j ≤ pm.length) :
    (extendGroup pm direction j g).1 ≤ pm.length := by
  cases hu : pm[j]? with
  | none => rw [extendGroup_none direction g hu]; exact h
  | some o =>
    have hj : j < pm.length := by
      by_contra hc
      rw [List.getElem?_eq_none (by omega)] at hu
      exact Option.noConfusion hu
    cases o with
    | none => rw [extendGroup_notpan direction g hu]; exact h
    | some u =>
      by_cases hd : dirOf u = direction
      · rw [extendGroup_step direction g hu hd]
        exact extendGroup_le_len pm direction (j + 1) (g ++ [j + 1]) (by omega)
      · rw [extendGroup_break direction g hu hd]; exact h
termination_by pm.length - j
decreasing_by omega

/-- The inner loop appends exactly the consecutive sampled positions
`j+1, …, fst` to its accumulator, where `fst` is the pair index it stops at. -/
theorem extendGroup_snd (pm : List PairClass) (direction : ℤ) (j : ℕ)
    (g : List ℕ) :
    (extendGroup pm direction j g).2 =
      g ++ List.range' (j + 1) ((extendGroup pm direction j g).1 - j) := by
  cases hu : pm[j]? with
  | none => rw [extendGroup_none direction g hu]; simp
  | some o =>
    have hj : j < pm.length := by
      by_contra hc
      rw [List.getElem?_eq_none (by omega)] at hu
      exact Option.noConfusion hu
    cases o with
    | none => rw [extendGroup_notpan direction g hu]; simp
    | some u =>
      by_cases hd : dirOf u = direction
      · rw [extendGroup_step direction g hu hd]
        rw [extendGroup_snd pm direction (j + 1) (g ++ [j + 1])]
        have hle := extendGroup_le_fst pm direction (j + 1) (g ++ [j + 1])
        rw [List.append_assoc]
        congr 1
        have hsub : (extendGroup pm direction (j + 1) (g ++ [j + 1])).1 - j =
            ((extendGroup pm direction (j + 1) (g ++ [j + 1])).1 - (j + 1)) + 1 := by
          omega
        rw [hsub, List.range'_succ]
        rfl
      · rw [extendGroup_break direction g hu hd]; simp
termination_by pm.length - j
decreasing_by omega

/-- If pairs `j, …, j'-1` are all pans of direction `d` and pair `j'` breaks
the run (missing, not a pan, or a pan of another direction), the inner loop
started at `j` stops exactly at `j'`. -/
theorem extendGroup_run (pm : List PairClass) (d : ℤ) (j j' : ℕ) (g : List ℕ)
    (hle : j ≤ j')
    (hrun : ∀ k, j ≤ k → k < j' → ∃ u, pm[k]? = some (some u) ∧ dirOf u = d)
    (hstop : pm[j']? = none ∨ pm[j']? = some none ∨
      ∃ v, pm[j']? = some (some v) ∧ dirOf v ≠ d) :
    (extendGroup pm d j g).1 = j' := by
  rcases Nat.eq_or_lt_of_le hle with heq | hlt
  · subst heq
    rcases hstop with h | h | ⟨v, h, hv⟩
    · rw [extendGroup_none d g h]
    · rw [extendGroup_notpan d g h]
    · rw [extendGroup_break d g h hv]
  · obtain ⟨u, hu, hd⟩ := hrun j (le_refl j) hlt
    rw [extendGroup_step d g hu hd]
    exact extendGroup_run pm d (j + 1) j' (g ++ [j + 1]) (by omega)
      (fun k hk1 hk2 => hrun k (by omega) hk2) hstop
termination_by j' - j
decreasing_by omega

/-- Python `sorted(set(g))`: the ascending list of the distinct sampled positions of
`g`. -/
def sortDedup (g : List ℕ) : List ℕ :=
  (g.dedup).insertionSort (· ≤ ·)

/-- A step-1 `List.range'` is sorted with respect to `<`. -/
theorem range'_sorted_lt (s n : ℕ) : (List.range' s n).Sorted (· < ·) := by
  induction n generalizing s with
  | zero => simp [List.range']
  | succ k ih =>
    rw [List.range'_succ]
    exact List.sorted_cons.mpr
      ⟨fun b hb => by have := List.mem_range'_1.mp hb; omega, ih (s + 1)⟩

/-- Applying `sorted(set(·))` to a strictly ascending list leaves it unchanged. -/
theorem sortDedup_of_sorted {l : List ℕ} (h : l.Sorted (· < ·)) :
    sortDedup l = l := by
  unfold sortDedup
  rw [List.dedup_eq_self.mpr (h.imp ne_of_lt : l.Nodup)]
  exact List.Sorted.insertionSort_eq (h.imp le_of_lt)

/-- The seed `[i, i+1]` followed by the extension `i+2, …, m` is the
consecutive range `i, …, m`. -/
theorem seed_append_range (i k : ℕ) :
    [i, i + 1] ++ List.range' (i + 2) k = List.range' i (k + 2) := by
  have h := List.range'_append i 2 k 1
  simpa [List.range'] using h

/-- The outer `while i < len(pair_metrics)` loop of the group builder: scan for
a pan pair at `i`; on finding one, seed a group with sampled positions
`[i, i+1]`, extend it with the inner loop, deduplicate and sort, keep it iff
it has at least `min_group_len` positions, and resume scanning after the pair
that ended the extension. -/
def buildGroupsAux (pm : List PairClass) (min_group_len : ℕ) (i : ℕ) :
    List (ℤ × List ℕ) :=
  match hu : pm[i]? with
  | none => []
  | some none => buildGroupsAux pm min_group_len (i + 1)
  | some (some u) =>
    let direction := dirOf u
    let r := extendGroup pm direction (i + 1) [i, i + 1]
    let g := sortDedup r.2
    let rest := buildGroupsAux pm min_group_len (r.1 + 1)
    if min_group_len ≤ g.length then (direction, g) :: rest else rest
termination_by pm.length - i
decreasing_by
  · have : i < pm.length := by
      by_contra hc
      rw [List.getElem?_eq_none (by omega)] at hu
      exact Option.noConfusion hu
    omega
  · have h1 : i < pm.length := by
      by_contra hc
      rw [List.getElem?_eq_none (by omega)] at hu
      exact Option.noConfusion hu
    have h2 : i + 1 ≤ (extendGroup pm (dirOf u) (i + 1) [i, i + 1]).1 :=
      extendGroup_le_fst pm (dirOf u) (i + 1) [i, i + 1]
    omega

/-- The group-building phase of `detect_pan_groups_from_video`: the list of
`(direction, sampled positions)` groups, in discovery order. -/
def buildGroups (pm : List PairClass) (min_group_len : ℕ) : List (ℤ × List ℕ) :=
  buildGroupsAux pm min_group_len 0

/-- Case equation: the outer loop stops once the pair index leaves the list. -/
theorem buildGroupsAux_none {pm : List PairClass} {i : ℕ} (mgl : ℕ)
    (h : pm[i]? = none) : buildGroupsAux pm mgl i = [] := by
  conv_lhs => rw [buildGroupsAux]
  split <;> simp_all

/-- Case equation: in the scanning state a non-pan pair is skipped. -/
theorem buildGroupsAux_notpan {pm : List PairClass} {i : ℕ} (mgl : ℕ)
    (h : pm[i]? = some none) :
    buildGroupsAux pm mgl i = buildGroupsAux pm mgl (i + 1) := by
  conv_lhs => rw [buildGroupsAux]
  split <;> simp_all

/-- Case equation: in the scanning state a pan pair at `i` seeds a group with
positions `[i, i+1]`, extends it, emits it iff it reaches `min_group_len`, and
resumes scanning after the pair that ended the extension. -/
theorem buildGroupsAux_pan {pm : List PairClass} {i : ℕ} {u : ℚ} (mgl : ℕ)
    (h : pm[i]? = some (some u)) :
    buildGroupsAux pm mgl i =
      (if mgl ≤ (sortDedup (extendGroup pm (dirOf u) (i + 1) [i, i + 1]).2).length
        then [(dirOf u, sortDedup (extendGroup pm (dirOf u) (i + 1) [i, i + 1]).2)]
        else [])
      ++ buildGroupsAux pm mgl ((extendGroup pm (dirOf u) (i + 1) [i, i + 1]).1 + 1) := by
  conv_lhs => rw [buildGroupsAux]
  split
  · simp_all
  · simp_all
  · rename_i u2 heq
    rw [h] at heq
    cases heq
    by_cases hc : mgl ≤ (sortDedup (extendGroup pm (dirOf u) (i + 1) [i, i + 1]).2).length
    · simp only [hc, if_true]
      rfl
    · simp only [hc, if_false]
      rfl

/-- Structural invariant of the emitted group list: starting from scan
position `lo`, every group's sampled positions are a consecutive range
`a, …, b` with `lo ≤ a`, `a + 1 ≤ b` and `b ≤ pm.length`, and successive
groups occupy strictly later positions. -/
def GroupsOK (pm : List PairClass) : ℕ → List (ℤ × List ℕ) → Prop
  | _, [] => True
  | lo, G :: rest => ∃ a b, lo ≤ a ∧ a + 1 ≤ b ∧ b ≤ pm.length ∧
      G.2 = List.range' a (b + 1 - a) ∧ GroupsOK pm (b + 1) rest

/-- The invariant `GroupsOK` is monotone in the scan lower bound. -/
theorem groupsOK_mono {pm : List PairClass} {lo lo' : ℕ}
    {gs : List (ℤ × List ℕ)} (h : lo' ≤ lo) (hg : GroupsOK pm lo gs) :
    GroupsOK pm lo' gs := by
  cases gs with
  | nil => trivial
  | cons G rest =>
    obtain ⟨a, b, h1, h2, h3, h4, h5⟩ := hg
    exact ⟨a, b, by omega, h2, h3, h4, h5⟩

/-- A group seeded at pan pair `i` is, after `sorted(set(·))`, exactly the
consecutive range of sampled positions from `i` to the pair index the inner
loop stopped at. -/
theorem pan_group_shape {pm : List PairClass} {i : ℕ} {u : ℚ}
    (h : pm[i]? = some (some u)) :
    sortDedup (extendGroup pm (dirOf u) (i + 1) [i, i + 1]).2 =
      List.range' i ((extendGroup pm (dirOf u) (i + 1) [i, i + 1]).1 + 1 - i) := by
  have hfst := extendGroup_le_fst pm (dirOf u) (i + 1) [i, i + 1]
  rw [extendGroup_snd, seed_append_range, sortDedup_of_sorted (range'_sorted_lt _ _)]
  congr 1
  omega

/-- The group list produced from scan position `i` satisfies the structural
invariant. -/
theorem buildGroupsAux_ok (pm : List PairClass) (mgl : ℕ) (i : ℕ) :
    GroupsOK pm i (buildGroupsAux pm mgl i) := by
  cases hu : pm[i]? with
  | none => rw [buildGroupsAux_none mgl hu]; trivial
  | some o =>
    have hi : i < pm.length := by
      by_contra hc
      rw [List.getElem?_eq_none (by omega)] at hu
      exact Option.noConfusion hu
    cases o with
    | none =>
      rw [buildGroupsAux_notpan mgl hu]
      exact groupsOK_mono (by omega) (buildGroupsAux_ok pm mgl (i + 1))
    | some u =>
      rw [buildGroupsAux_pan mgl hu]
      have h1 : i + 1 ≤ (extendGroup pm (dirOf u) (i + 1) [i, i + 1]).1 :=
        extendGroup_le_fst pm (dirOf u) (i + 1) [i, i + 1]
      have h2 : (extendGroup pm (dirOf u) (i + 1) [i, i + 1]).1 ≤ pm.length :=
        extendGroup_le_len pm (dirOf u) (i + 1) [i, i + 1] (by omega)
      have h3 := pan_group_shape hu
      have hrest := buildGroupsAux_ok pm mgl
        ((extendGroup pm (dirOf u) (i + 1) [i, i + 1]).1 + 1)
      by_cases hc : mgl ≤ (sortDedup (extendGroup pm (dirOf u) (i + 1) [i, i + 1]).2).length
      · simp only [hc, if_true, List.singleton_append]
        exact ⟨i, (extendGroup pm (dirOf u) (i + 1) [i, i + 1]).1,
          le_refl i, h1, h2, h3, hrest⟩
      · simp only [hc, if_false, List.nil_append]
        exact groupsOK_mono (by omega) hrest
termination_by pm.length - i
decreasing_by all_goals omega

/-- Facts extracted from the structural invariant: every group is a
consecutive range of at least two valid sampled positions, and distinct
groups occupy pairwise strictly ordered (hence disjoint) position sets. -/
theorem groupsOK_facts {pm : List PairClass} :
    ∀ {gs : List (ℤ × List ℕ)} {lo : ℕ}, GroupsOK pm lo gs →
      (∀ G ∈ gs, ∃ a b, a + 1 ≤ b ∧ b ≤ pm.length ∧
        G.2 = List.range' a (b + 1 - a))
      ∧ List.Pairwise (fun G1 G2 => ∀ x ∈ G1.2, ∀ y ∈ G2.2, x < y) gs
      ∧ ∀ G ∈ gs, ∀ x ∈ G.2, lo ≤ x := by
  intro gs
  induction gs with
  | nil => intro lo _; exact ⟨by simp, by simp, by simp⟩
  | cons G rest ih =>
    intro lo hg
    obtain ⟨a, b, h1, h2, h3, h4, h5⟩ := hg
    obtain ⟨ih1, ih2, ih3⟩ := ih h5
    have hGmem : ∀ x ∈ G.2, a ≤ x ∧ x ≤ b := by
      intro x hx
      rw [h4] at hx
      have := List.mem_range'_1.mp hx
      omega
    refine ⟨?_, ?_, ?_⟩
    · intro G' hG'
      rcases List.mem_cons.mp hG' with rfl | hmem
      · exact ⟨a, b, h2, h3, h4⟩
      · exact ih1 G' hmem
    · refine List.pairwise_cons.mpr ⟨?_, ih2⟩
      intro G' hG' x hx y hy
      have hxb := (hGmem x hx).2
      have hyb := ih3 G' hG' y hy
      omega
    · intro G' hG' x hx
      rcases List.mem_cons.mp hG' with rfl | hmem
      · exact le_trans h1 (hGmem x hx).1
      · exact le_trans (by omega) (ih3 G' hmem x hx)

/-- The export step used when `export_all_in_group` is false:
`step = max(1, int(round(2)))`, i.e. the fixed heuristic step of 2. -/
def export_step : ℤ :=
  max 1 2

/-- The `for idx in indices` loop of `pick_subset`: keep `idx` when nothing
has been kept yet (`last is None`) or when it is at least `target_step` past
the last kept index. -/
def pickLoop (target_step : ℤ) : List ℕ → Option ℕ → List ℕ → List ℕ
  | [], _, out => out
  | idx :: rest, last, out =>
    match last with
    | none => pickLoop target_step rest (some idx) (out ++ [idx])
    | some l =>
      if (idx : ℤ) - (l : ℤ) ≥ target_step then
        pickLoop target_step rest (some idx) (out ++ [idx])
      else pickLoop target_step rest (some l) out

/-- Function `pick_subset(indices, target_step)` from `lib.py`.  The unguarded Python
accesses `out[-1]` and `indices[-1]` are modelled with `getLast?`; the result
is `none` exactly when either access would raise (i.e. on an empty input). -/
def pick_subset (indices : List ℕ) (target_step : ℤ) : Option (List ℕ) :=
  let out := pickLoop target_step indices none []
  match out.getLast?, indices.getLast? with
  | some o, some l => some (if o ≠ l then out ++ [l] else out)
  | _, _ => none

/-- The export-selection branch of the per-group loop: keep every sampled
position when `export_all_in_group` is true, otherwise apply `pick_subset`
with the fixed heuristic step. -/
def select_export (cfg : Config) (sampled_idxs : List ℕ) : Option (List ℕ) :=
  if cfg.export_all_in_group then some sampled_idxs
  else pick_subset sampled_idxs export_step

/-- The loop `pickLoop` only ever appends: the accumulator's members persist. -/
theorem pickLoop_mem (step : ℤ) :
    ∀ (l : List ℕ) (last : Option ℕ) (out : List ℕ) (x : ℕ), x ∈ out →
      x ∈ pickLoop step l last out := by
  intro l
  induction l with
  | nil => intro last out x hx; exact hx
  | cons idx rest ih =>
    intro last out x hx
    cases last with
    | none => exact ih (some idx) (out ++ [idx]) x (List.mem_append_left _ hx)
    | some lst =>
      by_cases hc : (idx : ℤ) - (lst : ℤ) ≥ step
      · simpa [pickLoop, hc] using
          ih (some idx) (out ++ [idx]) x (List.mem_append_left _ hx)
      · simpa [pickLoop, hc] using ih (some lst) out x hx

/-- On a non-empty input the kept list is non-empty (the first index is always
kept). -/
theorem pickLoop_cons_ne_nil (step : ℤ) (a : ℕ) (t : List ℕ) :
    pickLoop step (a :: t) none [] ≠ [] := by
  have : a ∈ pickLoop step (a :: t) none [] := by
    simpa [pickLoop] using pickLoop_mem step t (some a) [a] a (by simp)
  exact List.ne_nil_of_mem this

/-- On a non-empty input `pick_subset` succeeds (neither `out[-1]` nor
`indices[-1]` can raise). -/
theorem pick_subset_isSome (indices : List ℕ) (step : ℤ) (h : indices ≠ []) :
    (pick_subset indices step).isSome := by
  cases indices with
  | nil => exact absurd rfl h
  | cons a t =>
    obtain ⟨o, ho⟩ := Option.isSome_iff_exists.mp
      (List.getLast?_isSome.mpr (pickLoop_cons_ne_nil step a t))
    obtain ⟨lst, hlst⟩ := Option.isSome_iff_exists.mp
      (List.getLast?_isSome.mpr (h : a :: t ≠ []))
    simp only [pick_subset, ho, hlst]
    rfl

/-- Selection `pick_subset` always returns a list containing both the first and the
last input index. -/
theorem pick_subset_endpoints (l : List ℕ) (step : ℤ) (h : l ≠ []) :
    ∃ out, pick_subset l step = some out ∧
      l.head h ∈ out ∧ l.getLast h ∈ out := by
  cases l with
  | nil => exact absurd rfl h
  | cons a t =>
    have hout0 : a ∈ pickLoop step (a :: t) none [] := by
      simpa [pickLoop] using pickLoop_mem step t (some a) [a] a (by simp)
    obtain ⟨o, ho⟩ := Option.isSome_iff_exists.mp
      (List.getLast?_isSome.mpr (pickLoop_cons_ne_nil step a t))
    have homem : o ∈ pickLoop step (a :: t) none [] :=
      List.mem_of_mem_getLast? ho
    have hlast : (a :: t).getLast? = some ((a :: t).getLast h) :=
      List.getLast?_eq_getLast _ h
    simp only [pick_subset, ho, hlast]
    by_cases hc : o ≠ (a :: t).getLast h
    · refine ⟨_, by rw [if_pos hc], ?_, ?_⟩
      · exact List.mem_append_left _ hout0
      · exact List.mem_append_right _ (by simp)
    · push_neg at hc
      refine ⟨_, by rw [if_neg (by simpa using hc)], hout0, ?_⟩
      rw [← hc]
      exact homem

/-- A stitched image as seen by the quality gate: its dimensions and its
grayscale pixel intensities (the BGR→gray conversion is external). -/
structure GrayImage where
  width : ℕ
  height : ℕ
  pixels : List ℕ
deriving DecidableEq, Repr

/-- Function `validate_panorama_quality(pano, min_width_height_ratio,
max_black_border_percent)` from `lib.py`: reject when `width / height` is
below the ratio bound, else accept iff the percentage of pixels with
intensity below 10 is at most `max_black_border_percent`. -/
def validate_panorama_quality (pano : GrayImage)
    (min_width_height_ratio : ℚ) (max_black_border_percent : ℚ) : Bool :=
  if (pano.width : ℚ) / (pano.height : ℚ) < min_width_height_ratio then false
  else
    decide ((((pano.pixels.countP (fun p => decide (p < 10))) : ℚ) /
      ((pano.pixels.length : ℚ))) * 100 ≤ max_black_border_percent)

/-- One entry of the `pair_metrics` list: `(is_pan, score, m)` for a present
summary, `(False, 0.0, None)` when motion estimation failed. -/
def pair_metrics (cfg : Config) (ms : List (Option MotionSummary)) :
    List (Bool × ℚ × Option MotionSummary) :=
  ms.map (fun m =>
    match m with
    | none => (false, 0, none)
    | some m0 =>
      ((is_horizontal_pan (some m0) cfg).1, (is_horizontal_pan (some m0) cfg).2,
        some m0))

/-- Projection of `pair_metrics` entries to what the group-building loop
reads: `some median_u` for a pan entry, `none` for a non-pan entry (whose
summary the loop never reads). -/
def pan_dirs (pms : List (Bool × ℚ × Option MotionSummary)) : List PairClass :=
  pms.map (fun e => if e.1 then e.2.2.map (fun m => m.median_u) else none)

/-- One per-group entry of the result record (`results["groups"]`).
`pano_uri = none` models the omitted `pano_uri` key. -/
structure GroupResult where
  id : ℕ
  direction : String
  frame_indices : List ℕ
  frame_uris : List String
  pano_uri : Option String
deriving DecidableEq, Repr

/-- The optional stitch-and-gate step of the per-group loop.  The external
stitcher is the oracle `stitcher` (returning `some` image on `Stitcher_OK`,
`none` on failure); persistence of an accepted panorama is the oracle
`panoName`. -/
def stitch_pano_uri (cfg : Config) (stitcher : List ℕ → Option GrayImage)
    (panoName : ℕ → String) (gid : ℕ) (export_idxs : List ℕ) : Option String :=
  if cfg.stitch then
    if 2 ≤ export_idxs.length then
      match stitcher export_idxs with
      | some pano =>
        if validate_panorama_quality pano cfg.min_pano_aspect_ratio
            cfg.max_black_border_percent
        then some (panoName gid) else none
      | none => none
    else none
  else none

/-- The per-group body of the export loop: select the export subset, resolve
each selected position in the sampled-frame list, persist each frame (oracle
`persist`), optionally stitch, and assemble the `GroupResult`. `none` models
an out-of-range access (which C10 rules out for groups the builder emits). -/
def group_result (cfg : Config) (sampledIdx : List ℕ)
    (persist : ℕ → ℕ → String) (stitcher : List ℕ → Option GrayImage)
    (panoName : ℕ → String) (gid : ℕ) (G : ℤ × List ℕ) : Option GroupResult :=
  match select_export cfg G.2 with
  | none => none
  | some export_idxs =>
    match export_idxs.mapM (fun s => sampledIdx[s]?) with
    | none => none
    | some frame_indices =>
      some
        { id := gid
          direction := if G.1 = 1 then "right" else "left"
          frame_indices := frame_indices
          frame_uris := frame_indices.map (fun fi => persist gid fi)
          pano_uri := stitch_pano_uri cfg stitcher panoName gid export_idxs }

/-- The deterministic core of `detect_pan_groups_from_video` downstream of
frame sampling and motion estimation: classify each pair, build groups, and
assemble the per-group results with 1-based ids in discovery order.
`sampledIdx` is the list of original frame indices of the sampled frames and
`ms` the motion summaries of its consecutive pairs. -/
def detect_pan_results (cfg : Config) (sampledIdx : List ℕ)
    (ms : List (Option MotionSummary)) (persist : ℕ → ℕ → String)
    (stitcher : List ℕ → Option GrayImage) (panoName : ℕ → String) :
    Option (List GroupResult) :=
  let groups := buildGroups (pan_dirs (pair_metrics cfg ms)) cfg.min_group_len
  groups.enum.mapM
    (fun e => group_result cfg sampledIdx persist stitcher panoName (e.1 + 1) e.2)

end Panoramas

namespace Panoramas

/-- C1: the pan classifier accepts a present summary iff all five threshold
conditions hold, and classifies an absent summary as `(false, 0)`. -/
theorem pan_classifier_iff_thresholds (cfg : Config) (m : MotionSummary) :
    ((is_horizontal_pan (some m) cfg).1 = true ↔
      (m.inlier_ratio ≥ cfg.tau_inliers ∧ |m.median_v| ≤ cfg.tau_v ∧
        cfg.tau_u_min ≤ |m.median_u| ∧ |m.median_u| ≤ cfg.tau_u_max ∧
        |m.scale - 1| ≤ cfg.tau_scale ∧ m.resid ≤ cfg.tau_parallax))
    ∧ is_horizontal_pan none cfg = (false, 0) := by
  constructor
  · simp [is_horizontal_pan, ge_iff_le, and_assoc]
  · rfl

/-- C7: for a present summary the classifier's score is exactly the weighted
sum of clamped contributions stated in the spec. -/
theorem score_formula_exact (cfg : Config) (m : MotionSummary)
    (hv : 0 < cfg.tau_v) (hs : 0 < cfg.tau_scale) (hp : 0 < cfg.tau_parallax) :
    (is_horizontal_pan (some m) cfg).2 =
      1.5 * m.inlier_ratio
      + 0.6 * (1 - min (|m.median_v| / cfg.tau_v) 1)
      + 0.4 * (1 - min (|m.scale - 1| / cfg.tau_scale) 1)
      + 0.6 * (1 - min (m.resid / cfg.tau_parallax) 1) := rfl

/-- C2: on the classification sequence `[T(+), T(+), F, T(+)]` with
`min_group_len = 3` the builder emits exactly one group with sampled positions
`{0, 1, 2}`; the trailing pan at pair index 3 yields the 2-element candidate
`{3, 4}`, which is discarded at `min_group_len = 3` (and kept at
`min_group_len = 2`). -/
theorem group_builder_example_min_len :
    buildGroups [some 1, some 1, none, some 1] 3 = [(1, [0, 1, 2])]
    ∧ buildGroups [some 1, some 1, none, some 1] 2 = [(1, [0, 1, 2]), (1, [3, 4])] := by
  constructor <;>
  · simp only [buildGroups]
    simp [buildGroupsAux_pan, buildGroupsAux_notpan, buildGroupsAux_none,
      extendGroup_step, extendGroup_notpan, extendGroup_none, extendGroup_break,
      dirOf, sortDedup]

/-- C3: when a run of same-direction pan pairs starting at pair `i` meets a
pan pair of the opposite direction at pair `j`, the builder closes the group
with exactly the sampled positions `i, …, j` (the opposite-direction step is
not merged) and resumes scanning at pair `j + 1`, so the reversing pair never
seeds a group of its own. -/
theorem group_builder_closes_on_reversal (pm : List PairClass) (mgl : ℕ)
    (i j : ℕ) (u v : ℚ) (hij : i < j)
    (hi : pm[i]? = some (some u))
    (hrun : ∀ k, i < k → k < j → ∃ w, pm[k]? = some (some w) ∧ dirOf w = dirOf u)
    (hj : pm[j]? = some (some v))
    (hrev : dirOf v ≠ dirOf u) :
    buildGroupsAux pm mgl i =
      (if mgl ≤ j + 1 - i then [(dirOf u, List.range' i (j + 1 - i))] else [])
      ++ buildGroupsAux pm mgl (j + 1) := by
  rw [buildGroupsAux_pan mgl hi]
  have hfst : (extendGroup pm (dirOf u) (i + 1) [i, i + 1]).1 = j :=
    extendGroup_run pm (dirOf u) (i + 1) j [i, i + 1] (by omega)
      (fun k hk1 hk2 => hrun k (by omega) hk2) (Or.inr (Or.inr ⟨v, hj, hrev⟩))
  have hshape := pan_group_shape hi
  rw [hfst] at hshape
  rw [hshape, hfst, List.length_range']

/-- Concrete witness for `group_builder_closes_on_reversal` on the sequence
`[T(+), T(+), T(-)]`: one group `{0, 1, 2}` is closed at the reversal and
scanning resumes past the reversing pair. -/
theorem group_builder_closes_on_reversal_witness :
    buildGroupsAux [some 1, some 1, some (-1)] 3 0 =
      (if 3 ≤ 2 + 1 - 0 then [(dirOf 1, List.range' 0 (2 + 1 - 0))] else [])
      ++ buildGroupsAux [some 1, some 1, some (-1)] 3 (2 + 1) :=
  group_builder_closes_on_reversal [some 1, some 1, some (-1)] 3 0 2 1 (-1)
    (by omega) (by rfl)
    (by
      intro k hk1 hk2
      have hk : k = 1 := by omega
      subst hk
      exact ⟨1, rfl, rfl⟩)
    (by rfl) (by decide)

/-- C9: every emitted group's sampled positions form a consecutive integer
range with at least two elements, and the position sets of distinct emitted
groups are pairwise disjoint, every position of an earlier group lying
strictly below every position of a later group. -/
theorem groups_consecutive_disjoint_ordered (pm : List PairClass) (mgl : ℕ) :
    (∀ G ∈ buildGroups pm mgl, ∃ a b, a + 1 ≤ b ∧
      G.2 = List.range' a (b + 1 - a))
    ∧ List.Pairwise (fun G1 G2 => ∀ x ∈ G1.2, ∀ y ∈ G2.2, x < y)
        (buildGroups pm mgl) := by
  have h := groupsOK_facts (buildGroupsAux_ok pm mgl 0)
  refine ⟨fun G hG => ?_, h.2.1⟩
  obtain ⟨a, b, h1, _, h3⟩ := h.1 G hG
  exact ⟨a, b, h1, h3⟩

/-- Concrete witness for `groups_consecutive_disjoint_ordered` on the
sequence `[T(+), T(+), F, T(+)]`. -/
theorem groups_consecutive_disjoint_ordered_witness :
    ∃ a b, a + 1 ≤ b ∧ ([0, 1, 2] : List ℕ) = List.range' a (b + 1 - a) :=
  (groups_consecutive_disjoint_ordered [some 1, some 1, none, some 1] 3).1
    (1, [0, 1, 2])
    (by
      have : buildGroups [some 1, some 1, none, some 1] 3 = [(1, [0, 1, 2])] := by
        simp only [buildGroups]
        simp [buildGroupsAux_pan, buildGroupsAux_notpan, buildGroupsAux_none,
          extendGroup_step, extendGroup_notpan, extendGroup_none,
          extendGroup_break, dirOf, sortDedup]
      rw [this]
      exact List.mem_singleton.mpr rfl)

/-- C4: on a non-empty strictly increasing position list and any step `≥ 1`,
the export selector with `export_all_in_group = false` keeps both the first
and the last position, and with `export_all_in_group = true` it keeps every
position unmodified. -/
theorem export_selector_endpoints (l : List ℕ) (step : ℤ)
    (h1 : l ≠ []) (h2 : l.Sorted (· < ·)) (h3 : 1 ≤ step) :
    (∃ out, pick_subset l step = some out ∧
      l.head h1 ∈ out ∧ l.getLast h1 ∈ out)
    ∧ ∀ cfg : Config, cfg.export_all_in_group = true →
        select_export cfg l = some l := by
  refine ⟨pick_subset_endpoints l step h1, fun cfg hc => ?_⟩
  simp [select_export, hc]

/-- Concrete witness for `export_selector_endpoints` on `[0, 2, 5]` with
step 2. -/
theorem export_selector_endpoints_witness :
    (∃ out, pick_subset [0, 2, 5] 2 = some out ∧
      ([0, 2, 5] : List ℕ).head (by decide) ∈ out ∧
      ([0, 2, 5] : List ℕ).getLast (by decide) ∈ out)
    ∧ ∀ cfg : Config, cfg.export_all_in_group = true →
        select_export cfg [0, 2, 5] = some [0, 2, 5] :=
  export_selector_endpoints [0, 2, 5] 2 (by decide) (by decide) (by decide)

/-- C10: every emitted group has at least two sampled positions (whatever
`min_group_len` is), all of them valid indices into the sampled-frame list
(which has one more entry than the pair list), and `pick_subset` on a group's
positions always succeeds, so the unguarded `out[-1]` and `indices[-1]`
accesses cannot raise. -/
theorem groups_min_two_pick_subset_safe (pm : List PairClass) (mgl : ℕ) :
    ∀ G ∈ buildGroups pm mgl,
      2 ≤ G.2.length ∧ (∀ x ∈ G.2, x < pm.length + 1)
      ∧ ∀ step : ℤ, (pick_subset G.2 step).isSome := by
  intro G hG
  have h := groupsOK_facts (buildGroupsAux_ok pm mgl 0)
  obtain ⟨a, b, h1, h2, h3⟩ := h.1 G hG
  refine ⟨?_, ?_, ?_⟩
  · rw [h3, List.length_range']
    omega
  · intro x hx
    rw [h3] at hx
    have := List.mem_range'_1.mp hx
    omega
  · intro step
    apply pick_subset_isSome
    rw [h3]
    simp only [ne_eq, List.range'_eq_nil]
    omega

/-- Concrete witness for `groups_min_two_pick_subset_safe` on the sequence
`[T(+), T(+), F, T(+)]`. -/
theorem groups_min_two_pick_subset_safe_witness :
    2 ≤ ([0, 1, 2] : List ℕ).length
    ∧ (∀ x ∈ ([0, 1, 2] : List ℕ),
        x < ([some 1, some 1, none, some 1] : List PairClass).length + 1)
    ∧ ∀ step : ℤ, (pick_subset [0, 1, 2] step).isSome :=
  groups_min_two_pick_subset_safe [some 1, some 1, none, some 1] 3
    (1, [0, 1, 2])
    (by
      have : buildGroups [some 1, some 1, none, some 1] 3 = [(1, [0, 1, 2])] := by
        simp only [buildGroups]
        simp [buildGroupsAux_pan, buildGroupsAux_notpan, buildGroupsAux_none,
          extendGroup_step, extendGroup_notpan, extendGroup_none,
          extendGroup_break, dirOf, sortDedup]
      rw [this]
      exact List.mem_singleton.mpr rfl)

/-- C5: the quality gate accepts iff the aspect ratio is at least
`min_width_height_ratio` and the percentage of pixels with intensity below 10
is at most `max_black_border_percent`; a square image is rejected under the
default ratio 1.2 whatever its content, and an image whose black-pixel
percentage is 20 is rejected under the default limit 15. -/
theorem quality_gate_iff (pano : GrayImage) (rmin maxb : ℚ)
    (hh : 0 < pano.height) :
    (validate_panorama_quality pano rmin maxb = true ↔
      (rmin ≤ (pano.width : ℚ) / (pano.height : ℚ)
        ∧ (((pano.pixels.countP (fun p => decide (p < 10))) : ℚ) /
            ((pano.pixels.length : ℚ))) * 100 ≤ maxb))
    ∧ (pano.width = pano.height →
        validate_panorama_quality pano 1.2 maxb = false)
    ∧ ((((pano.pixels.countP (fun p => decide (p < 10))) : ℚ) /
          ((pano.pixels.length : ℚ))) * 100 = 20 →
        validate_panorama_quality pano rmin 15 = false) := by
  refine ⟨?_, ?_, ?_⟩
  · unfold validate_panorama_quality
    by_cases hlt : (pano.width : ℚ) / (pano.height : ℚ) < rmin
    · simp only [hlt, if_true]
      exact iff_of_false (by simp) (fun hC => absurd hC.1 (not_le.mpr hlt))
    · simp only [hlt, if_false, decide_eq_true_eq]
      exact ⟨fun hb => ⟨not_lt.mp hlt, hb⟩, fun hC => hC.2⟩
  · intro hsq
    unfold validate_panorama_quality
    have h1 : (pano.width : ℚ) / (pano.height : ℚ) = 1 := by
      rw [hsq]
      exact div_self (by exact_mod_cast hh.ne')
    rw [h1]
    norm_num
  · intro hbp
    unfold validate_panorama_quality
    split
    · rfl
    · rw [hbp]
      norm_num

/-- Concrete witness for `quality_gate_iff`: a 2×2 image with five recorded
intensities, one of which is black (20%). -/
theorem quality_gate_iff_witness :
    0 < (GrayImage.mk 2 2 [0, 30, 15, 200, 250]).height ∧
    ((validate_panorama_quality (GrayImage.mk 2 2 [0, 30, 15, 200, 250]) 2 50 = true ↔
      ((2 : ℚ) ≤ ((GrayImage.mk 2 2 [0, 30, 15, 200, 250]).width : ℚ) /
          ((GrayImage.mk 2 2 [0, 30, 15, 200, 250]).height : ℚ)
        ∧ ((((GrayImage.mk 2 2 [0, 30, 15, 200, 250]).pixels.countP
              (fun p => decide (p < 10))) : ℚ) /
            (((GrayImage.mk 2 2 [0, 30, 15, 200, 250]).pixels.length : ℚ))) * 100 ≤ 50))
    ∧ ((GrayImage.mk 2 2 [0, 30, 15, 200, 250]).width =
          (GrayImage.mk 2 2 [0, 30, 15, 200, 250]).height →
        validate_panorama_quality (GrayImage.mk 2 2 [0, 30, 15, 200, 250]) 1.2 50 = false)
    ∧ (((((GrayImage.mk 2 2 [0, 30, 15, 200, 250]).pixels.countP
            (fun p => decide (p < 10))) : ℚ) /
          (((GrayImage.mk 2 2 [0, 30, 15, 200, 250]).pixels.length : ℚ))) * 100 = 20 →
        validate_panorama_quality (GrayImage.mk 2 2 [0, 30, 15, 200, 250]) 2 15 = false)) :=
  ⟨by decide, quality_gate_iff (GrayImage.mk 2 2 [0, 30, 15, 200, 250]) 2 50 (by decide)⟩

/-- C8: the export step is the fixed value 2, and two runs on the same inputs
whose merged configurations differ only in `export_overlap_target` produce
identical result records — the field is never read after the configuration
merge. -/
theorem overlap_target_never_read (cfg : Config) (x : ℚ) (sampledIdx : List ℕ)
    (ms : List (Option MotionSummary)) (persist : ℕ → ℕ → String)
    (stitcher : List ℕ → Option GrayImage) (panoName : ℕ → String) :
    export_step = 2 ∧
    detect_pan_results { cfg with export_overlap_target := x }
        sampledIdx ms persist stitcher panoName
      = detect_pan_results cfg sampledIdx ms persist stitcher panoName := by
  refine ⟨rfl, ?_⟩
  cases cfg
  rfl

/-- C6: a group's `pano_uri` is present only when stitching is enabled, at
least two export frames exist, the external stitcher succeeded, and the
stitched image passed the quality gate; and replacing the stitching behavior
by any other (e.g. an always-failing one) keeps the group in the result with
the same id, direction, exported frame indices and frame uris — stitching
failure is non-fatal. -/
theorem pano_uri_only_on_success (cfg : Config) (sampledIdx : List ℕ)
    (persist : ℕ → ℕ → String) (stitcher stitcher2 : List ℕ → Option GrayImage)
    (panoName : ℕ → String) (gid : ℕ) (G : ℤ × List ℕ) (r : GroupResult)
    (hr : group_result cfg sampledIdx persist stitcher panoName gid G = some r) :
    (∀ u, r.pano_uri = some u →
      cfg.stitch = true ∧
      ∃ e pano, select_export cfg G.2 = some e ∧ 2 ≤ e.length ∧
        stitcher e = some pano ∧
        validate_panorama_quality pano cfg.min_pano_aspect_ratio
          cfg.max_black_border_percent = true)
    ∧ ∃ r2, group_result cfg sampledIdx persist stitcher2 panoName gid G = some r2
        ∧ r2.id = r.id ∧ r2.direction = r.direction
        ∧ r2.frame_indices = r.frame_indices ∧ r2.frame_uris = r.frame_uris := by
  unfold group_result at hr ⊢
  cases hse : select_export cfg G.2 with
  | none => rw [hse] at hr; exact Option.noConfusion hr
  | some e =>
    rw [hse] at hr
    dsimp only at hr ⊢
    cases hmap : e.mapM (fun s => sampledIdx[s]?) with
    | none => rw [hmap] at hr; exact Option.noConfusion hr
    | some fis =>
      rw [hmap] at hr
      dsimp only at hr ⊢
      have hrec := Option.some.inj hr
      constructor
      · intro u hu
        rw [← hrec] at hu
        simp only at hu
        unfold stitch_pano_uri at hu
        by_cases hst : cfg.stitch
        · rw [if_pos hst] at hu
          by_cases hlen : 2 ≤ e.length
          · rw [if_pos hlen] at hu
            cases hpano : stitcher e with
            | none => rw [hpano] at hu; exact Option.noConfusion hu
            | some pano =>
              rw [hpano] at hu
              dsimp only at hu
              by_cases hval : validate_panorama_quality pano
                  cfg.min_pano_aspect_ratio cfg.max_black_border_percent = true
              · exact ⟨hst, e, pano, rfl, hlen, hpano, hval⟩
              · rw [if_neg hval] at hu
                exact Option.noConfusion hu
          · rw [if_neg hlen] at hu
            exact Option.noConfusion hu
        · rw [if_neg hst] at hu
          exact Option.noConfusion hu
      · refine ⟨_, rfl, ?_, ?_, ?_, ?_⟩ <;> rw [← hrec]

/-- Concrete witness for `pano_uri_only_on_success`: a stitch-enabled run on a
three-frame group whose stitcher returns a wide, bright image; the pano is
accepted, and replacing the stitcher by an always-failing one keeps the group
with the same exported frames. -/
theorem pano_uri_only_on_success_witness :
    (∀ u, (GroupResult.mk 1 "right" [0, 6] ["uri", "uri"] (some "p")).pano_uri = some u →
      ({ default_cfg with stitch := true } : Config).stitch = true ∧
      ∃ e pano,
        select_export { default_cfg with stitch := true } (1, [0, 1, 2]).2 = some e ∧
        2 ≤ e.length ∧
        (fun _ : List ℕ => some (GrayImage.mk 4 2 [255, 255, 255, 255, 255, 255, 255, 255])) e
          = some pano ∧
        validate_panorama_quality pano
          ({ default_cfg with stitch := true } : Config).min_pano_aspect_ratio
          ({ default_cfg with stitch := true } : Config).max_black_border_percent = true)
    ∧ ∃ r2,
        group_result { default_cfg with stitch := true } [0, 3, 6]
          (fun _ _ => "uri") (fun _ => none) (fun _ => "p") 1 (1, [0, 1, 2]) = some r2
        ∧ r2.id = (GroupResult.mk 1 "right" [0, 6] ["uri", "uri"] (some "p")).id
        ∧ r2.direction = (GroupResult.mk 1 "right" [0, 6] ["uri", "uri"] (some "p")).direction
        ∧ r2.frame_indices =
            (GroupResult.mk 1 "right" [0, 6] ["uri", "uri"] (some "p")).frame_indices
        ∧ r2.frame_uris =
            (GroupResult.mk 1 "right" [0, 6] ["uri", "uri"] (some "p")).frame_uris :=
  pano_uri_only_on_success { default_cfg with stitch := true } [0, 3, 6]
    (fun _ _ => "uri")
    (fun _ => some (GrayImage.mk 4 2 [255, 255, 255, 255, 255, 255, 255, 255]))
    (fun _ => none) (fun _ => "p") 1 (1, [0, 1, 2])
    (GroupResult.mk 1 "right" [0, 6] ["uri", "uri"] (some "p"))
    (by
      simp [group_result, select_export, pick_subset, pickLoop, export_step,
        stitch_pano_uri, validate_panorama_quality, default_cfg, List.mapM,
        List.mapM.loop]
      norm_num)

/-- Concrete witness for `score_formula_exact` at the default thresholds and a
concrete motion summary. -/
theorem score_formula_exact_witness :
    0 < default_cfg.tau_v ∧ 0 < default_cfg.tau_scale ∧ 0 < default_cfg.tau_parallax ∧
    (is_horizontal_pan
        (some ⟨0.5, 20, 0.5, 0.75, 1⟩) default_cfg).2 =
      1.5 * (0.5 : ℚ)
      + 0.6 * (1 - min (|(0.5 : ℚ)| / default_cfg.tau_v) 1)
      + 0.4 * (1 - min (|(1 : ℚ) - 1| / default_cfg.tau_scale) 1)
      + 0.6 * (1 - min ((0.75 : ℚ) / default_cfg.tau_parallax) 1) :=
  ⟨by norm_num [default_cfg], by norm_num [default_cfg], by norm_num [default_cfg],
    score_formula_exact default_cfg ⟨0.5, 20, 0.5, 0.75, 1⟩
      (by norm_num [default_cfg]) (by norm_num [default_cfg]) (by norm_num [default_cfg])⟩

end Panoramas
